import Mathlib

/-!
Verification of the Namada subset: Ethereum bridge parameter storage
(`crates/ethereum_bridge/src/storage/parameters.rs`), PGF inflation
(`crates/governance/src/pgf/inflation.rs`), the IBC protocol action context
(`crates/ibc/src/actions.rs`) and light-SDK transaction building
(`crates/light_sdk/src/transaction/`).

Rust panics are modelled by the `Panic` error of an `Except`; storage is a
total map from an inductive key space to optionally-present typed values,
with Borsh decoding failure modelled by a stored value of the wrong shape.
-/

/-- The different panics (fatal aborts) the embedded code can raise. -/
inductive Panic
  /-- `must_read_key`: the storage read itself failed (undecodable bytes). -/
  | couldNotRead
  /-- `must_read_key`: key absent although the bridge active flag is present. -/
  | onlyPartConfigured
  /-- `init_storage`: native token whitelisted with wrong decimal places. -/
  | nativeTokenDenom
  /-- `unimplemented!` in `IbcProtocolContext::handle_masp_tx`. -/
  | unimplementedMasp
  deriving DecidableEq, Repr

/-- A 20-byte Ethereum address (`EthAddress`). -/
structure EthAddress where
  bytes : List Nat
  deriving DecidableEq, Repr

/-- `EthBridgeStatus` stored under the bridge active key. -/
inductive EthBridgeStatus
  | disabled
  | enabledAtGenesis
  | enabledAtEpoch (epoch : Nat)
  deriving DecidableEq, Repr

/-- Whether the status denotes an enabled bridge. -/
def EthBridgeStatus.isEnabled : EthBridgeStatus → Bool
  | .disabled => false
  | .enabledAtGenesis => true
  | .enabledAtEpoch _ => true

/-- `MinimumConfirmations`: a `NonZeroU64` newtype (the non-zero invariant is
established at construction time and is irrelevant to the claims proved). -/
structure MinimumConfirmations where
  val : Nat
  deriving DecidableEq, Repr

/-- `UpgradeableContract = { address, version }`; `ContractVersion` is a
`NonZeroU64` newtype, modelled as `Nat`. -/
structure UpgradeableContract where
  address : EthAddress
  version : Nat
  deriving DecidableEq, Repr

/-- `Contracts = { native_erc20, bridge }`. -/
structure Contracts where
  native_erc20 : EthAddress
  bridge : UpgradeableContract
  deriving DecidableEq, Repr

/-- `DenominatedAmount`: raw amount and number of decimal places. -/
structure DenominatedAmount where
  amount : Nat
  denom : Nat
  deriving DecidableEq, Repr

/-- `Erc20WhitelistEntry = { token_address, token_cap }`. -/
structure Erc20WhitelistEntry where
  token_address : EthAddress
  token_cap : DenominatedAmount
  deriving DecidableEq, Repr

/-- `EthereumBridgeParams`. -/
structure EthereumBridgeParams where
  eth_start_height : Nat
  min_confirmations : MinimumConfirmations
  erc20_whitelist : List Erc20WhitelistEntry
  contracts : Contracts
  deriving DecidableEq, Repr

/-- `EthereumOracleConfig`: the oracle projection of the bridge parameters. -/
structure EthereumOracleConfig where
  eth_start_height : Nat
  min_confirmations : MinimumConfirmations
  contracts : Contracts
  deriving DecidableEq, Repr

/-- `impl From<EthereumBridgeParams> for EthereumOracleConfig`. -/
def EthereumOracleConfig.ofParams (p : EthereumBridgeParams) :
    EthereumOracleConfig :=
  { eth_start_height := p.eth_start_height
    min_confirmations := p.min_confirmations
    contracts := p.contracts }

/-- Suffixes of the per-asset whitelist keys (`whitelist::KeyType`). -/
inductive WhitelistSuffix
  | whitelisted
  | cap
  | denomination
  deriving DecidableEq, Repr

/-- The bridge storage key space (`bridge_storage::*_key()` plus the
whitelist keys and the two VP subspaces initialized by `init_storage`).
Distinct constructors model the distinct storage key paths. -/
inductive BridgeKey
  | active
  | min_confirmations_key
  | native_erc20_key
  | bridge_contract_key
  | eth_start_height_key
  | whitelistKey (asset : EthAddress) (suf : WhitelistSuffix)
  | vpEthereumBridgeKey (i : Nat)
  | vpBridgePoolKey (i : Nat)
  deriving DecidableEq, Repr

/-- Typed storage values; `corruptVal` stands for bytes that do not decode
as the type expected at the key where they sit. -/
inductive StorageValue
  | statusVal (s : EthBridgeStatus)
  | minConfVal (m : MinimumConfirmations)
  | ethAddrVal (a : EthAddress)
  | contractVal (c : UpgradeableContract)
  | heightVal (h : Nat)
  | boolVal (b : Bool)
  | amountVal (a : Nat)
  | denomVal (d : Nat)
  | corruptVal (bytes : List Nat)
  deriving DecidableEq, Repr

/-- The bridge key-value storage. -/
def BridgeStorage : Type := BridgeKey → Option StorageValue

/-- Storage with no key written. -/
def emptyStorage : BridgeStorage := fun _ => none

/-- `write_bytes` (an in-memory write-log write; it does not fail). -/
def BridgeStorage.write (s : BridgeStorage) (k : BridgeKey) (v : StorageValue) :
    BridgeStorage :=
  fun q => if q = k then some v else s q

/-- Borsh decoding of an `EthBridgeStatus` value at a key. -/
def decodeStatus : StorageValue → Option EthBridgeStatus
  | .statusVal st => some st
  | _ => none

/-- Borsh decoding of a `MinimumConfirmations` value at a key. -/
def decodeMinConf : StorageValue → Option MinimumConfirmations
  | .minConfVal m => some m
  | _ => none

/-- Borsh decoding of an `EthAddress` value at a key. -/
def decodeEthAddr : StorageValue → Option EthAddress
  | .ethAddrVal a => some a
  | _ => none

/-- Borsh decoding of an `UpgradeableContract` value at a key. -/
def decodeContract : StorageValue → Option UpgradeableContract
  | .contractVal c => some c
  | _ => none

/-- Borsh decoding of a block height at a key. -/
def decodeHeight : StorageValue → Option Nat
  | .heightVal h => some h
  | _ => none

/-- `must_read_key`: reads and decodes `key`, panicking if the read fails
(undecodable bytes) or the key is absent. -/
def must_read_key {α : Type} (s : BridgeStorage) (k : BridgeKey)
    (dec : StorageValue → Option α) : Except Panic α :=
  match s k with
  | none => .error .onlyPartConfigured
  | some v =>
    match dec v with
    | some x => .ok x
    | none => .error .couldNotRead

/-- Modelled from the spec: `is_bridge_active` of
`eth_bridge_queries` (not under `src/`) reads the bridge active key and
reports whether the stored status is enabled; it aborts when the key is
unreadable or absent (the caller guards absence with `has_key`). -/
def is_bridge_active (s : BridgeStorage) : Except Panic Bool :=
  match s .active with
  | some (.statusVal st) => .ok st.isEnabled
  | some _ => .error .couldNotRead
  | none => .error .couldNotRead

/-- `EthereumOracleConfig::read`: `None` when the active flag is absent or
the bridge is disabled; otherwise the four remaining keys are read with
`must_read_key`, so any missing or undecodable key panics. -/
def EthereumOracleConfig.read (s : BridgeStorage) :
    Except Panic (Option EthereumOracleConfig) :=
  if (s .active).isSome = false then .ok none
  else
    match is_bridge_active s with
    | .error p => .error p
    | .ok false => .ok none
    | .ok true =>
      match must_read_key s .min_confirmations_key decodeMinConf with
      | .error p => .error p
      | .ok mc =>
        match must_read_key s .native_erc20_key decodeEthAddr with
        | .error p => .error p
        | .ok ne =>
          match must_read_key s .bridge_contract_key decodeContract with
          | .error p => .error p
          | .ok bc =>
            match must_read_key s .eth_start_height_key decodeHeight with
            | .error p => .error p
            | .ok sh =>
              .ok (some { eth_start_height := sh
                          min_confirmations := mc
                          contracts := { native_erc20 := ne, bridge := bc } })

/-- `NATIVE_MAX_DECIMAL_PLACES`: the chain's canonical native precision. -/
def NATIVE_MAX_DECIMAL_PLACES : Nat := 6

/-- One iteration of the whitelist loop of `init_storage`: panics when the
entry is for the native ERC20 address with the wrong number of decimal
places, otherwise writes the whitelisted flag, cap and denomination keys. -/
def writeWhitelistEntry (native_erc20 : EthAddress) (s : BridgeStorage)
    (e : Erc20WhitelistEntry) : Except Panic BridgeStorage :=
  let cap := e.token_cap.amount
  let denom := e.token_cap.denom
  if e.token_address = native_erc20 ∧ denom ≠ NATIVE_MAX_DECIMAL_PLACES then
    .error .nativeTokenDenom
  else
    .ok (((s.write (.whitelistKey e.token_address .whitelisted)
            (.boolVal true)).write
          (.whitelistKey e.token_address .cap) (.amountVal cap)).write
          (.whitelistKey e.token_address .denomination) (.denomVal denom))

/-- The whitelist loop of `init_storage`, entry by entry in list order. -/
def writeWhitelist (native_erc20 : EthAddress) :
    BridgeStorage → List Erc20WhitelistEntry → Except Panic BridgeStorage
  | s, [] => .ok s
  | s, e :: rest =>
    match writeWhitelistEntry native_erc20 s e with
    | .error p => .error p
    | .ok s' => writeWhitelist native_erc20 s' rest

/-- Modelled from the spec: `vp::ethereum_bridge::init_storage` (not under
`src/`) initializes the Ethereum bridge VP subspace, touching only keys of
that subspace. -/
def vpEthereumBridgeInit (s : BridgeStorage) : BridgeStorage :=
  s.write (.vpEthereumBridgeKey 0) (.boolVal true)

/-- Modelled from the spec: `vp::bridge_pool::init_storage` (not under
`src/`) initializes the bridge pool VP subspace, touching only keys of that
subspace. -/
def vpBridgePoolInit (s : BridgeStorage) : BridgeStorage :=
  s.write (.vpBridgePoolKey 0) (.boolVal true)

/-- `EthereumBridgeParams::init_storage`: writes the active flag and the four
parameter keys, then the whitelist entries, then initializes both VP
subspaces. The only failure mode is the native-denomination panic. -/
def EthereumBridgeParams.init_storage (p : EthereumBridgeParams)
    (s : BridgeStorage) : Except Panic BridgeStorage :=
  let s := s.write .active (.statusVal .enabledAtGenesis)
  let s := s.write .min_confirmations_key (.minConfVal p.min_confirmations)
  let s := s.write .native_erc20_key (.ethAddrVal p.contracts.native_erc20)
  let s := s.write .bridge_contract_key (.contractVal p.contracts.bridge)
  let s := s.write .eth_start_height_key (.heightVal p.eth_start_height)
  match writeWhitelist p.contracts.native_erc20 s p.erc20_whitelist with
  | .error q => .error q
  | .ok s => .ok (vpBridgePoolInit (vpEthereumBridgeInit s))

/-- A key is missing or holds undecodable bytes for the decoder `dec`. -/
def badAt {α : Type} (s : BridgeStorage) (k : BridgeKey)
    (dec : StorageValue → Option α) : Bool :=
  match s k with
  | none => true
  | some v => (dec v).isNone

/-- One of the four post-flag oracle config keys is missing or
undecodable. -/
def oracleKeyBad (s : BridgeStorage) : Prop :=
  badAt s .min_confirmations_key decodeMinConf = true ∨
  badAt s .native_erc20_key decodeEthAddr = true ∨
  badAt s .bridge_contract_key decodeContract = true ∨
  badAt s .eth_start_height_key decodeHeight = true

lemma must_read_key_error_of_badAt {α : Type} {s : BridgeStorage}
    {k : BridgeKey} {dec : StorageValue → Option α}
    (h : badAt s k dec = true) : ∃ p, must_read_key s k dec = .error p := by
  cases hk : s k with
  | none => exact ⟨.onlyPartConfigured, by simp [must_read_key, hk]⟩
  | some v =>
    cases hd : dec v with
    | none => exact ⟨.couldNotRead, by simp [must_read_key, hk, hd]⟩
    | some x => exfalso; simp [badAt, hk, hd] at h

lemma badAt_false_of_must_read_ok {α : Type} {s : BridgeStorage}
    {k : BridgeKey} {dec : StorageValue → Option α} {x : α}
    (h : must_read_key s k dec = .ok x) : badAt s k dec = false := by
  cases hk : s k with
  | none => simp [must_read_key, hk] at h
  | some v =>
    cases hd : dec v with
    | none => simp [must_read_key, hk, hd] at h
    | some y => simp [badAt, hk, hd]

/-- Claim C1: `EthereumOracleConfig::read` returns `None` when the bridge
active flag is absent or indicates a disabled bridge, and when the flag is
present and enabled but any of the four remaining keys is missing or
undecodable the read aborts with a panic instead of returning `None` or a
value. -/
theorem oracle_read_error_handling (s : BridgeStorage) :
    (s .active = none → EthereumOracleConfig.read s = .ok none) ∧
    (∀ st : EthBridgeStatus, s .active = some (.statusVal st) →
      st.isEnabled = false → EthereumOracleConfig.read s = .ok none) ∧
    (∀ st : EthBridgeStatus, s .active = some (.statusVal st) →
      st.isEnabled = true → oracleKeyBad s →
      ∃ p, EthereumOracleConfig.read s = .error p) := by
  refine ⟨?_, ?_, ?_⟩
  · intro h
    simp [EthereumOracleConfig.read, h]
  · intro st h hdis
    simp [EthereumOracleConfig.read, h, is_bridge_active, hdis]
  · intro st h hen hbad
    cases hmc : must_read_key s .min_confirmations_key decodeMinConf with
    | error p =>
      exact ⟨p, by
        simp [EthereumOracleConfig.read, h, is_bridge_active, hen, hmc]⟩
    | ok mc =>
      cases hne : must_read_key s .native_erc20_key decodeEthAddr with
      | error p =>
        exact ⟨p, by
          simp [EthereumOracleConfig.read, h, is_bridge_active, hen, hmc, hne]⟩
      | ok ne =>
        cases hbc : must_read_key s .bridge_contract_key decodeContract with
        | error p =>
          exact ⟨p, by
            simp [EthereumOracleConfig.read, h, is_bridge_active, hen, hmc,
              hne, hbc]⟩
        | ok bc =>
          cases hsh : must_read_key s .eth_start_height_key decodeHeight with
          | error p =>
            exact ⟨p, by
              simp [EthereumOracleConfig.read, h, is_bridge_active, hen, hmc,
                hne, hbc, hsh]⟩
          | ok sh =>
            exfalso
            rcases hbad with hb | hb | hb | hb
            · rw [badAt_false_of_must_read_ok hmc] at hb; exact absurd hb (by simp)
            · rw [badAt_false_of_must_read_ok hne] at hb; exact absurd hb (by simp)
            · rw [badAt_false_of_must_read_ok hbc] at hb; exact absurd hb (by simp)
            · rw [badAt_false_of_must_read_ok hsh] at hb; exact absurd hb (by simp)

/-- A storage with the bridge enabled but only the active flag written. -/
def storageOnlyActive : BridgeStorage :=
  emptyStorage.write .active (.statusVal .enabledAtGenesis)

theorem oracle_read_error_handling_witness :
    EthereumOracleConfig.read emptyStorage = .ok none ∧
    (∃ p, EthereumOracleConfig.read storageOnlyActive = .error p) :=
  ⟨(oracle_read_error_handling emptyStorage).1 rfl,
    (oracle_read_error_handling storageOnlyActive).2.2 .enabledAtGenesis rfl
      rfl (Or.inl rfl)⟩

lemma writeWhitelist_preserves (native : EthAddress) :
    ∀ (l : List Erc20WhitelistEntry) (s s' : BridgeStorage),
      writeWhitelist native s l = .ok s' →
      ∀ k, (∀ a suf, k ≠ BridgeKey.whitelistKey a suf) → s' k = s k := by
  intro l
  induction l with
  | nil =>
    intro s s' h k _
    simp only [writeWhitelist] at h
    cases h
    rfl
  | cons e rest ih =>
    intro s s' h k hk
    simp only [writeWhitelist] at h
    cases hw : writeWhitelistEntry native s e with
    | error p => rw [hw] at h; exact absurd h (by simp)
    | ok s₁ =>
      rw [hw] at h
      rw [ih s₁ s' h k hk]
      simp only [writeWhitelistEntry] at hw
      split at hw
      · exact absurd hw (by simp)
      · cases hw
        simp [BridgeStorage.write, hk]

lemma writeWhitelist_ok_of_valid (native : EthAddress) :
    ∀ (l : List Erc20WhitelistEntry) (s : BridgeStorage),
      (∀ e ∈ l, e.token_address = native →
        e.token_cap.denom = NATIVE_MAX_DECIMAL_PLACES) →
      ∃ s', writeWhitelist native s l = .ok s' := by
  intro l
  induction l with
  | nil => exact fun s _ => ⟨s, rfl⟩
  | cons e rest ih =>
    intro s hval
    have hcond : ¬(e.token_address = native ∧
        e.token_cap.denom ≠ NATIVE_MAX_DECIMAL_PLACES) := by
      rintro ⟨h1, h2⟩
      exact h2 (hval e (List.mem_cons_self e rest) h1)
    obtain ⟨s', hs'⟩ :=
      ih _ (fun x hx ha => hval x (List.mem_cons_of_mem e hx) ha)
    refine ⟨s', ?_⟩
    simp only [writeWhitelist, writeWhitelistEntry, if_neg hcond]
    exact hs'

/-- Claim C2: for valid bridge parameters, `init_storage` on empty storage
followed by `EthereumOracleConfig::read` yields `Some` of the projection of
the parameters onto start height, minimum confirmations and contracts. -/
theorem init_storage_then_read (p : EthereumBridgeParams)
    (hvalid : ∀ e ∈ p.erc20_whitelist,
      e.token_address = p.contracts.native_erc20 →
      e.token_cap.denom = NATIVE_MAX_DECIMAL_PLACES) :
    ∃ s', p.init_storage emptyStorage = .ok s' ∧
      EthereumOracleConfig.read s' =
        .ok (some (EthereumOracleConfig.ofParams p)) := by
  obtain ⟨sW, hW⟩ := writeWhitelist_ok_of_valid p.contracts.native_erc20
    p.erc20_whitelist
    (((((emptyStorage.write .active
        (.statusVal .enabledAtGenesis)).write
        .min_confirmations_key (.minConfVal p.min_confirmations)).write
        .native_erc20_key (.ethAddrVal p.contracts.native_erc20)).write
        .bridge_contract_key (.contractVal p.contracts.bridge)).write
        .eth_start_height_key (.heightVal p.eth_start_height)) hvalid
  refine ⟨vpBridgePoolInit (vpEthereumBridgeInit sW), ?_, ?_⟩
  · simp only [EthereumBridgeParams.init_storage]
    rw [hW]
  · have hpres := writeWhitelist_preserves p.contracts.native_erc20
      p.erc20_whitelist _ sW hW
    have hA : vpBridgePoolInit (vpEthereumBridgeInit sW) .active =
        some (.statusVal .enabledAtGenesis) := by
      simp [vpBridgePoolInit, vpEthereumBridgeInit, BridgeStorage.write,
        hpres .active (by intro a suf; simp)]
    have hM : vpBridgePoolInit (vpEthereumBridgeInit sW)
        .min_confirmations_key = some (.minConfVal p.min_confirmations) := by
      simp [vpBridgePoolInit, vpEthereumBridgeInit, BridgeStorage.write,
        hpres .min_confirmations_key (by intro a suf; simp)]
    have hN : vpBridgePoolInit (vpEthereumBridgeInit sW)
        .native_erc20_key = some (.ethAddrVal p.contracts.native_erc20) := by
      simp [vpBridgePoolInit, vpEthereumBridgeInit, BridgeStorage.write,
        hpres .native_erc20_key (by intro a suf; simp)]
    have hB : vpBridgePoolInit (vpEthereumBridgeInit sW)
        .bridge_contract_key = some (.contractVal p.contracts.bridge) := by
      simp [vpBridgePoolInit, vpEthereumBridgeInit, BridgeStorage.write,
        hpres .bridge_contract_key (by intro a suf; simp)]
    have hS : vpBridgePoolInit (vpEthereumBridgeInit sW)
        .eth_start_height_key = some (.heightVal p.eth_start_height) := by
      simp [vpBridgePoolInit, vpEthereumBridgeInit, BridgeStorage.write,
        hpres .eth_start_height_key (by intro a suf; simp)]
    simp [EthereumOracleConfig.read, is_bridge_active, must_read_key, hA, hM,
      hN, hB, hS, decodeMinConf, decodeEthAddr, decodeContract, decodeHeight,
      EthBridgeStatus.isEnabled, EthereumOracleConfig.ofParams]

/-- Concrete valid parameters with an empty whitelist. -/
def paramsExample : EthereumBridgeParams :=
  { eth_start_height := 3
    min_confirmations := ⟨100⟩
    erc20_whitelist := []
    contracts :=
      { native_erc20 := ⟨[42]⟩
        bridge := { address := ⟨[23]⟩, version := 1 } } }

theorem init_storage_then_read_witness :
    ∃ s', paramsExample.init_storage emptyStorage = .ok s' ∧
      EthereumOracleConfig.read s' =
        .ok (some (EthereumOracleConfig.ofParams paramsExample)) :=
  init_storage_then_read paramsExample (by simp [paramsExample])

lemma writeWhitelist_error_of_bad (native : EthAddress) :
    ∀ (l : List Erc20WhitelistEntry) (s : BridgeStorage),
      (∃ e ∈ l, e.token_address = native ∧
        e.token_cap.denom ≠ NATIVE_MAX_DECIMAL_PLACES) →
      writeWhitelist native s l = .error .nativeTokenDenom := by
  intro l
  induction l with
  | nil => rintro s ⟨e, he, -⟩; exact absurd he (List.not_mem_nil e)
  | cons e rest ih =>
    rintro s ⟨x, hx, hbad⟩
    by_cases hc : e.token_address = native ∧
        e.token_cap.denom ≠ NATIVE_MAX_DECIMAL_PLACES
    · simp only [writeWhitelist, writeWhitelistEntry, if_pos hc]
    · have hxr : x ∈ rest := by
        rcases List.mem_cons.mp hx with h | h
        · exact absurd (h ▸ hbad) hc
        · exact h
      simp only [writeWhitelist, writeWhitelistEntry, if_neg hc]
      exact ih _ ⟨x, hxr, hbad⟩

lemma writeWhitelist_error_only (native : EthAddress) :
    ∀ (l : List Erc20WhitelistEntry) (s : BridgeStorage) (q : Panic),
      writeWhitelist native s l = .error q → q = .nativeTokenDenom := by
  intro l
  induction l with
  | nil => intro s q h; exact absurd h (by simp [writeWhitelist])
  | cons e rest ih =>
    intro s q h
    simp only [writeWhitelist] at h
    cases hw : writeWhitelistEntry native s e with
    | error p =>
      rw [hw] at h
      simp only [writeWhitelistEntry] at hw
      split at hw
      · cases hw; cases h; rfl
      · exact absurd hw (by simp)
    | ok s₁ =>
      rw [hw] at h
      exact ih s₁ q h

/-- The three whitelist keys of `a` hold values of the written shapes. -/
def whitelistShapes (s : BridgeStorage) (a : EthAddress) : Prop :=
  s (.whitelistKey a .whitelisted) = some (.boolVal true) ∧
  (∃ c, s (.whitelistKey a .cap) = some (.amountVal c)) ∧
  (∃ d, s (.whitelistKey a .denomination) = some (.denomVal d))

lemma writeWhitelistEntry_shapes (native : EthAddress) {s s₁ : BridgeStorage}
    {e : Erc20WhitelistEntry}
    (hw : writeWhitelistEntry native s e = .ok s₁) :
    ∀ a, (a = e.token_address → whitelistShapes s₁ a) ∧
      (a ≠ e.token_address → ∀ suf,
        s₁ (.whitelistKey a suf) = s (.whitelistKey a suf)) := by
  simp only [writeWhitelistEntry] at hw
  split at hw
  · exact absurd hw (by simp)
  · cases hw
    intro a
    constructor
    · rintro rfl
      refine ⟨?_, ⟨e.token_cap.amount, ?_⟩, ⟨e.token_cap.denom, ?_⟩⟩ <;>
        simp [BridgeStorage.write]
    · intro ha suf
      simp [BridgeStorage.write, ha]

lemma writeWhitelist_shapes_mono (native : EthAddress) :
    ∀ (l : List Erc20WhitelistEntry) (s s' : BridgeStorage),
      writeWhitelist native s l = .ok s' →
      ∀ a, whitelistShapes s a → whitelistShapes s' a := by
  intro l
  induction l with
  | nil =>
    intro s s' h a hs
    simp only [writeWhitelist] at h
    cases h
    exact hs
  | cons e rest ih =>
    intro s s' h a hs
    simp only [writeWhitelist] at h
    cases hw : writeWhitelistEntry native s e with
    | error p => rw [hw] at h; exact absurd h (by simp)
    | ok s₁ =>
      rw [hw] at h
      refine ih s₁ s' h a ?_
      by_cases ha : a = e.token_address
      · exact ((writeWhitelistEntry_shapes native hw) a).1 ha
      · have hp := ((writeWhitelistEntry_shapes native hw) a).2 ha
        exact ⟨hp .whitelisted ▸ hs.1,
          hs.2.1.imp (fun c hc => hp .cap ▸ hc),
          hs.2.2.imp (fun d hd => hp .denomination ▸ hd)⟩

lemma writeWhitelist_writes_all (native : EthAddress) :
    ∀ (l : List Erc20WhitelistEntry) (s s' : BridgeStorage),
      writeWhitelist native s l = .ok s' →
      ∀ e ∈ l, whitelistShapes s' e.token_address := by
  intro l
  induction l with
  | nil => intro s s' _ e he; exact absurd he (List.not_mem_nil e)
  | cons x rest ih =>
    intro s s' h e he
    simp only [writeWhitelist] at h
    cases hw : writeWhitelistEntry native s x with
    | error p => rw [hw] at h; exact absurd h (by simp)
    | ok s₁ =>
      rw [hw] at h
      rcases List.mem_cons.mp he with rfl | hr
      · exact writeWhitelist_shapes_mono native rest s₁ s' h e.token_address
          (((writeWhitelistEntry_shapes native hw) e.token_address).1 rfl)
      · exact ih s₁ s' h e hr

/-- Claim C8: `init_storage` panics when the whitelist contains an entry for
the native ERC20 address whose denomination differs from the canonical
native precision; a panic is its only failure mode (never a recoverable
error), and when every native-addressed entry is well-denominated it
succeeds and writes all three keys of every entry, whatever the
denominations of non-native entries. -/
theorem init_storage_native_denom_safety (p : EthereumBridgeParams)
    (s : BridgeStorage) :
    ((∃ e ∈ p.erc20_whitelist, e.token_address = p.contracts.native_erc20 ∧
        e.token_cap.denom ≠ NATIVE_MAX_DECIMAL_PLACES) →
      p.init_storage s = .error .nativeTokenDenom) ∧
    (∀ q, p.init_storage s = .error q → q = .nativeTokenDenom) ∧
    ((∀ e ∈ p.erc20_whitelist, e.token_address = p.contracts.native_erc20 →
        e.token_cap.denom = NATIVE_MAX_DECIMAL_PLACES) →
      ∃ s', p.init_storage s = .ok s' ∧
        ∀ e ∈ p.erc20_whitelist, whitelistShapes s' e.token_address) := by
  refine ⟨?_, ?_, ?_⟩
  · intro hbad
    simp only [EthereumBridgeParams.init_storage]
    rw [writeWhitelist_error_of_bad p.contracts.native_erc20
      p.erc20_whitelist _ hbad]
  · intro q h
    simp only [EthereumBridgeParams.init_storage] at h
    cases hw : writeWhitelist p.contracts.native_erc20 _ p.erc20_whitelist with
    | error p' =>
      rw [hw] at h
      cases h
      exact writeWhitelist_error_only _ _ _ _ hw
    | ok s₁ => rw [hw] at h; exact absurd h (by simp)
  · intro hvalid
    obtain ⟨sW, hW⟩ := writeWhitelist_ok_of_valid p.contracts.native_erc20
      p.erc20_whitelist _ hvalid
    refine ⟨vpBridgePoolInit (vpEthereumBridgeInit sW), ?_, ?_⟩
    · simp only [EthereumBridgeParams.init_storage]
      rw [hW]
    · intro e he
      have hsh := writeWhitelist_writes_all p.contracts.native_erc20
        p.erc20_whitelist _ sW hW e he
      refine ⟨?_, hsh.2.1.imp (fun c hc => ?_), hsh.2.2.imp (fun d hd => ?_)⟩
      · simpa [vpBridgePoolInit, vpEthereumBridgeInit, BridgeStorage.write]
          using hsh.1
      · simpa [vpBridgePoolInit, vpEthereumBridgeInit, BridgeStorage.write]
          using hc
      · simpa [vpBridgePoolInit, vpEthereumBridgeInit, BridgeStorage.write]
          using hd

/-- Parameters whitelisting the native asset with a wrong denomination. -/
def paramsBadNative : EthereumBridgeParams :=
  { eth_start_height := 3
    min_confirmations := ⟨100⟩
    erc20_whitelist :=
      [{ token_address := ⟨[42]⟩, token_cap := { amount := 7, denom := 18 } }]
    contracts :=
      { native_erc20 := ⟨[42]⟩
        bridge := { address := ⟨[23]⟩, version := 1 } } }

theorem init_storage_native_denom_safety_witness :
    paramsBadNative.init_storage emptyStorage = .error .nativeTokenDenom :=
  (init_storage_native_denom_safety paramsBadNative emptyStorage).1
    ⟨{ token_address := ⟨[42]⟩, token_cap := { amount := 7, denom := 18 } },
      by simp [paramsBadNative], by simp [paramsBadNative], by decide⟩

/-- Ledger addresses; `pgf` is the internal PGF treasury address
(`super::ADDRESS` in the inflation module). -/
inductive Address
  | pgf
  | ibcInternal
  | established (n : Nat)
  deriving DecidableEq, Repr

/-- Modelled from the spec: the fixed-point decimal type `Dec` of
`namada_core` (not under `src/`), an integer scaled by `10 ^ 6`
(6 decimal places of precision). -/
structure Dec where
  i : Int
  deriving DecidableEq, Repr

/-- The fixed-point scaling factor (6 decimal places). -/
def decScale : Int := 1000000

/-- Modelled from the spec: `Dec` multiplication, truncating. -/
def Dec.mul (x y : Dec) : Dec := ⟨x.i * y.i / decScale⟩

/-- Modelled from the spec: `Dec` division, truncating. -/
def Dec.div (x y : Dec) : Dec := ⟨x.i * decScale / y.i⟩

/-- Modelled from the spec: `Dec::from` on an integer count. -/
def Dec.ofNat (n : Nat) : Dec := ⟨n * decScale⟩

/-- Modelled from the spec: `Dec::from(token::Amount)`; raw token units sit
at the native 6-decimal scale, so the scaled integer is the raw amount. -/
def Dec.ofAmount (a : Nat) : Dec := ⟨a⟩

/-- `Dec::default()`, zero. -/
def Dec.zero : Dec := ⟨0⟩

/-- Modelled from the spec: checked `Dec` multiplication, `none` when the
product is not representable in the backing 256-bit signed integer. -/
def Dec.checked_mul (x y : Dec) : Option Dec :=
  if (x.i * y.i).natAbs < 2 ^ 255 then some (x.mul y) else none

/-- Modelled from the spec: `token::Amount::from(Dec)`, truncation of the
scaled integer to a non-negative raw amount. -/
def Amount.ofDec (d : Dec) : Nat := d.i.toNat

/-- `PGFIbcTarget`: an IBC funding target. -/
structure PGFIbcTarget where
  target : String
  amount : Nat
  port_id : String
  channel_id : String
  deriving DecidableEq, Repr

/-- `PGFInternalTarget`: a local funding target. -/
structure PGFInternalTarget where
  target : Address
  amount : Nat
  deriving DecidableEq, Repr

/-- `PGFTarget`: the two funding variants. -/
inductive PGFTarget
  | internal (t : PGFInternalTarget)
  | ibc (t : PGFIbcTarget)
  deriving DecidableEq, Repr

/-- `PGFTarget::amount`. -/
def PGFTarget.amount : PGFTarget → Nat
  | .internal t => t.amount
  | .ibc t => t.amount

/-- A stored funding obligation (`StoragePgfFunding`): counter id plus
target detail. -/
structure PgfFunding where
  id : Nat
  detail : PGFTarget
  deriving DecidableEq, Repr

/-- `StewardDetail`: steward address and its reward distribution, a finite
map from recipient address to fractional share, taken in some iteration
order. -/
structure StewardDetail where
  address : Address
  reward_distribution : List (Address × Dec)
  deriving DecidableEq, Repr

/-- The PGF parameters read by `apply_inflation`. -/
structure PgfParameters where
  pgf_inflation_rate : Dec
  stewards_inflation_rate : Dec
  deriving DecidableEq, Repr

/-- The storage reads `apply_inflation` performs before disbursing:
parameters, native token, epochs per year, total minted supply, the loaded
funding obligations (in storage iteration order) and the stewards. -/
structure PgfCtx where
  parameters : PgfParameters
  staking_token : Address
  epochs_per_year : Nat
  total_tokens : Nat
  payments : List PgfFunding
  stewards : List StewardDetail

/-- The collaborator transfer/credit primitives over an abstract storage
`σ` (`namada_trans_token::transfer`, the injected `transfer_over_ibc`
closure and `credit_tokens` are not under `src/`). A result `.error s'`
means the call failed leaving the mutably borrowed storage as `s'`. -/
structure TokenBackend (σ : Type) where
  transfer : σ → Address → Address → Address → Nat → Except σ σ
  transfer_over_ibc : σ → Address → Address → PGFIbcTarget → Except σ σ
  credit_tokens : σ → Address → Address → Nat → Except σ σ

/-- The observable disbursement actions of one epoch pass, in order;
the boolean mirrors the info/warn logging of each attempt. -/
inductive PgfEvent
  | treasuryCredit (amount : Nat)
  | payAttempt (id : Nat) (amount : Nat) (ok : Bool)
  | stewardCredit (recipient : Address) (amount : Nat) (ok : Bool)
  deriving DecidableEq, Repr

/-- Is the event a funding payment attempt? -/
def PgfEvent.isPay : PgfEvent → Bool
  | .payAttempt _ _ _ => true
  | _ => false

/-- Is the event a steward reward credit attempt? -/
def PgfEvent.isStewardCredit : PgfEvent → Bool
  | .stewardCredit _ _ _ => true
  | _ => false

/-- The funding ids of the payment attempts of a trace, in order. -/
def payIds (evs : List PgfEvent) : List Nat :=
  evs.filterMap fun e =>
    match e with
    | .payAttempt i _ _ => some i
    | _ => none

/-- The comparison `|a, b| a.id.cmp(&b.id)` used to sort the fundings. -/
def fundingLe (a b : PgfFunding) : Prop := a.id ≤ b.id

instance : DecidableRel fundingLe :=
  fun a b => inferInstanceAs (Decidable (a.id ≤ b.id))

instance : IsTotal PgfFunding fundingLe :=
  ⟨fun a b => Nat.le_total a.id b.id⟩

instance : IsTrans PgfFunding fundingLe :=
  ⟨fun _ _ _ hab hbc => Nat.le_trans hab hbc⟩

/-- One iteration of the funding loop: attempt the transfer of the full
amount from the PGF address via the variant-appropriate backend, log
success or failure, and continue with the (possibly updated) storage. -/
def payFunding {σ : Type} (B : TokenBackend σ) (staking_token : Address)
    (acc : σ × List PgfEvent) (funding : PgfFunding) : σ × List PgfEvent :=
  let result :=
    match funding.detail with
    | .internal target =>
      B.transfer acc.1 staking_token .pgf target.target target.amount
    | .ibc target =>
      B.transfer_over_ibc acc.1 staking_token .pgf target
  match result with
  | .ok s' => (s', acc.2 ++ [.payAttempt funding.id funding.detail.amount true])
  | .error s' =>
    (s', acc.2 ++ [.payAttempt funding.id funding.detail.amount false])

/-- The reward of one distribution share:
`pgf_steward_inflation.checked_mul(&percentage).unwrap_or_default()`
converted to an amount. -/
def rewardAmount (infl pct : Dec) : Nat :=
  Amount.ofDec ((infl.checked_mul pct).getD Dec.zero)

/-- One iteration of the steward reward loop: credit one recipient with its
share of the steward pool, logging success or failure. -/
def creditSteward {σ : Type} (B : TokenBackend σ) (staking_token : Address)
    (infl : Dec) (acc : σ × List PgfEvent) (p : Address × Dec) :
    σ × List PgfEvent :=
  let reward_amount := rewardAmount infl p.2
  match B.credit_tokens acc.1 staking_token p.1 reward_amount with
  | .ok s' => (s', acc.2 ++ [.stewardCredit p.1 reward_amount true])
  | .error s' => (s', acc.2 ++ [.stewardCredit p.1 reward_amount false])

/-- The treasury inflation amount of one epoch, computed as in lines 41-44
of the source: `pgf_pd_rate = pgf_inflation_rate / epochs_per_year`,
`pgf_inflation = total_tokens * pgf_pd_rate` in `Dec` arithmetic, then
converted to a raw token amount. -/
def treasuryAmount (ctx : PgfCtx) : Nat :=
  Amount.ofDec ((Dec.ofAmount ctx.total_tokens).mul
    (ctx.parameters.pgf_inflation_rate.div (Dec.ofNat ctx.epochs_per_year)))

/-- The steward inflation pool of one epoch:
`total_supply * (stewards_inflation_rate / epochs_per_year)`. -/
def stewardInflation (ctx : PgfCtx) : Dec :=
  (Dec.ofAmount ctx.total_tokens).mul
    (ctx.parameters.stewards_inflation_rate.div
      (Dec.ofNat ctx.epochs_per_year))

/-- The body of the outer steward loop: credit every share of one
steward's distribution in order. -/
def stewardStep {σ : Type} (B : TokenBackend σ) (staking_token : Address)
    (infl : Dec) (acc : σ × List PgfEvent) (steward : StewardDetail) :
    σ × List PgfEvent :=
  steward.reward_distribution.foldl (creditSteward B staking_token infl) acc

/-- `apply_inflation`: mint the per-epoch treasury inflation into the PGF
account (propagating a credit failure), then pay the funding obligations
sorted ascending by id, then credit every steward distribution share. -/
def apply_inflation {σ : Type} (B : TokenBackend σ) (ctx : PgfCtx) (s : σ) :
    Except σ (σ × List PgfEvent) :=
  match B.credit_tokens s ctx.staking_token .pgf (treasuryAmount ctx) with
  | .error sE => .error sE
  | .ok s0 =>
    let pgf_fundings := List.insertionSort fundingLe ctx.payments
    let afterPay := pgf_fundings.foldl (payFunding B ctx.staking_token)
      (s0, [.treasuryCredit (treasuryAmount ctx)])
    let afterStew := ctx.stewards.foldl
      (stewardStep B ctx.staking_token (stewardInflation ctx)) afterPay
    .ok afterStew

lemma payFunding_trace {σ : Type} (B : TokenBackend σ) (tok : Address)
    (s : σ) (evs : List PgfEvent) (f : PgfFunding) :
    ∃ s₁ b, payFunding B tok (s, evs) f =
      (s₁, evs ++ [PgfEvent.payAttempt f.id f.detail.amount b]) := by
  obtain ⟨id, detail⟩ := f
  cases detail with
  | internal t =>
    cases hres : B.transfer s tok .pgf t.target t.amount with
    | ok s' => exact ⟨s', true, by simp [payFunding, hres]⟩
    | error s' => exact ⟨s', false, by simp [payFunding, hres]⟩
  | ibc t =>
    cases hres : B.transfer_over_ibc s tok .pgf t with
    | ok s' => exact ⟨s', true, by simp [payFunding, hres]⟩
    | error s' => exact ⟨s', false, by simp [payFunding, hres]⟩

lemma payFold_trace {σ : Type} (B : TokenBackend σ) (tok : Address) :
    ∀ (l : List PgfFunding) (s : σ) (evs : List PgfEvent),
      ∃ flags : List Bool, flags.length = l.length ∧
        (l.foldl (payFunding B tok) (s, evs)).2 =
          evs ++ List.zipWith
            (fun f b => PgfEvent.payAttempt f.id f.detail.amount b) l flags := by
  intro l
  induction l with
  | nil => exact fun s evs => ⟨[], rfl, by simp⟩
  | cons f rest ih =>
    intro s evs
    obtain ⟨s₁, b, hstep⟩ := payFunding_trace B tok s evs f
    obtain ⟨flags, hlen, htr⟩ :=
      ih s₁ (evs ++ [PgfEvent.payAttempt f.id f.detail.amount b])
    refine ⟨b :: flags, by simp [hlen], ?_⟩
    simp only [List.foldl_cons, hstep, htr, List.zipWith]
    simp

lemma creditSteward_trace {σ : Type} (B : TokenBackend σ) (tok : Address)
    (infl : Dec) (s : σ) (evs : List PgfEvent) (p : Address × Dec) :
    ∃ s₁ b, creditSteward B tok infl (s, evs) p =
      (s₁, evs ++ [PgfEvent.stewardCredit p.1 (rewardAmount infl p.2) b]) := by
  cases hres : B.credit_tokens s tok p.1 (rewardAmount infl p.2) with
  | ok s' => exact ⟨s', true, by simp [creditSteward, hres]⟩
  | error s' => exact ⟨s', false, by simp [creditSteward, hres]⟩

lemma stewardInner_trace {σ : Type} (B : TokenBackend σ) (tok : Address)
    (infl : Dec) :
    ∀ (pairs : List (Address × Dec)) (s : σ) (evs : List PgfEvent),
      ∃ flags : List Bool, flags.length = pairs.length ∧
        (pairs.foldl (creditSteward B tok infl) (s, evs)).2 =
          evs ++ List.zipWith
            (fun p b => PgfEvent.stewardCredit p.1 (rewardAmount infl p.2) b)
            pairs flags := by
  intro pairs
  induction pairs with
  | nil => exact fun s evs => ⟨[], rfl, by simp⟩
  | cons p rest ih =>
    intro s evs
    obtain ⟨s₁, b, hstep⟩ := creditSteward_trace B tok infl s evs p
    obtain ⟨flags, hlen, htr⟩ :=
      ih s₁ (evs ++ [PgfEvent.stewardCredit p.1 (rewardAmount infl p.2) b])
    refine ⟨b :: flags, by simp [hlen], ?_⟩
    simp only [List.foldl_cons, hstep, htr, List.zipWith]
    simp

lemma stewardOuter_trace {σ : Type} (B : TokenBackend σ) (tok : Address)
    (infl : Dec) :
    ∀ (stewards : List StewardDetail) (acc : σ × List PgfEvent),
      ∃ flags : List Bool,
        flags.length =
          (stewards.flatMap fun st => st.reward_distribution).length ∧
        (stewards.foldl (stewardStep B tok infl) acc).2 =
          acc.2 ++ List.zipWith
            (fun p b => PgfEvent.stewardCredit p.1 (rewardAmount infl p.2) b)
            (stewards.flatMap fun st => st.reward_distribution) flags := by
  intro stewards
  induction stewards with
  | nil => exact fun acc => ⟨[], rfl, by simp⟩
  | cons st rest ih =>
    intro acc
    obtain ⟨flags₁, hlen₁, htr₁⟩ :=
      stewardInner_trace B tok infl st.reward_distribution acc.1 acc.2
    obtain ⟨flags₂, hlen₂, htr₂⟩ :=
      ih (st.reward_distribution.foldl (creditSteward B tok infl) acc)
    refine ⟨flags₁ ++ flags₂, by simp [hlen₁, hlen₂], ?_⟩
    simp only [List.foldl_cons, stewardStep, List.flatMap_cons]
    rw [List.zipWith_append _ _ _ _ _ (by rw [hlen₁]), htr₂]
    rw [htr₁, List.append_assoc]

lemma exists_mem_zipWith_of_mem {α β γ : Type} (g : α → β → γ) :
    ∀ (l : List α) (fl : List β), fl.length = l.length →
      ∀ a ∈ l, ∃ b, g a b ∈ List.zipWith g l fl := by
  intro l
  induction l with
  | nil => intro fl _ a ha; exact absurd ha (List.not_mem_nil a)
  | cons x rest ih =>
    intro fl h a ha
    cases fl with
    | nil => simp at h
    | cons b bs =>
      rcases List.mem_cons.mp ha with rfl | hr
      · exact ⟨b, by simp⟩
      · obtain ⟨b', hb'⟩ := ih bs (by simpa using h) a hr
        exact ⟨b', by simp [hb']⟩

lemma eq_of_mem_zipWith {α β γ : Type} (g : α → β → γ) :
    ∀ (l : List α) (fl : List β) (c : γ), c ∈ List.zipWith g l fl →
      ∃ a b, a ∈ l ∧ c = g a b := by
  intro l
  induction l with
  | nil => intro fl c hc; simp at hc
  | cons x rest ih =>
    intro fl c hc
    cases fl with
    | nil => simp at hc
    | cons b bs =>
      rcases List.mem_cons.mp (by simpa using hc) with h | h
      · exact ⟨x, b, List.mem_cons_self x rest, h⟩
      · obtain ⟨a, b', ha, hab⟩ := ih bs c h
        exact ⟨a, b', List.mem_cons_of_mem x ha, hab⟩

lemma payIds_payZip :
    ∀ (l : List PgfFunding) (fl : List Bool), fl.length = l.length →
      payIds (List.zipWith
        (fun f b => PgfEvent.payAttempt f.id f.detail.amount b) l fl) =
        l.map PgfFunding.id := by
  intro l
  induction l with
  | nil => intro fl _; simp [payIds]
  | cons f rest ih =>
    intro fl h
    cases fl with
    | nil => simp at h
    | cons b bs =>
      simp only [List.zipWith, List.map, payIds, List.filterMap_cons]
      have := ih bs (by simpa using h)
      simp only [payIds] at this
      simp [this]

lemma payIds_stewardZip (infl : Dec) :
    ∀ (pairs : List (Address × Dec)) (fl : List Bool),
      payIds (List.zipWith
        (fun p b => PgfEvent.stewardCredit p.1 (rewardAmount infl p.2) b)
        pairs fl) = [] := by
  intro pairs fl
  rw [payIds, List.filterMap_eq_nil_iff]
  intro e he
  obtain ⟨a, b, -, rfl⟩ := eq_of_mem_zipWith _ pairs fl e he
  rfl

/-- The shape of a successful epoch pass: the trace is the treasury credit,
then one payment attempt per sorted funding, then one credit attempt per
steward distribution share. -/
lemma apply_inflation_ok_shape {σ : Type} (B : TokenBackend σ) (ctx : PgfCtx)
    (s s' : σ) (evs : List PgfEvent)
    (hok : apply_inflation B ctx s = .ok (s', evs)) :
    ∃ flagsP flagsS : List Bool,
      flagsP.length = (List.insertionSort fundingLe ctx.payments).length ∧
      flagsS.length =
        (ctx.stewards.flatMap fun st => st.reward_distribution).length ∧
      evs = PgfEvent.treasuryCredit (treasuryAmount ctx) ::
        (List.zipWith
          (fun f b => PgfEvent.payAttempt f.id f.detail.amount b)
          (List.insertionSort fundingLe ctx.payments) flagsP ++
         List.zipWith
          (fun p b => PgfEvent.stewardCredit p.1
            (rewardAmount (stewardInflation ctx) p.2) b)
          (ctx.stewards.flatMap fun st => st.reward_distribution) flagsS) := by
  simp only [apply_inflation] at hok
  cases hcred : B.credit_tokens s ctx.staking_token .pgf (treasuryAmount ctx)
    with
  | error sE => rw [hcred] at hok; exact absurd hok (by simp)
  | ok s0 =>
    rw [hcred] at hok
    obtain ⟨flagsP, hlenP, htrP⟩ := payFold_trace B ctx.staking_token
      (List.insertionSort fundingLe ctx.payments) s0
      [.treasuryCredit (treasuryAmount ctx)]
    obtain ⟨flagsS, hlenS, htrS⟩ := stewardOuter_trace B ctx.staking_token
      (stewardInflation ctx) ctx.stewards
      ((List.insertionSort fundingLe ctx.payments).foldl
        (payFunding B ctx.staking_token)
        (s0, [.treasuryCredit (treasuryAmount ctx)]))
    refine ⟨flagsP, flagsS, hlenP, hlenS, ?_⟩
    have hevs : evs = ((ctx.stewards.foldl
        (stewardStep B ctx.staking_token (stewardInflation ctx))
        ((List.insertionSort fundingLe ctx.payments).foldl
          (payFunding B ctx.staking_token)
          (s0, [.treasuryCredit (treasuryAmount ctx)])))).2 := by
      exact (congrArg Prod.snd (Except.ok.inj hok)).symm
    rw [hevs, htrS, htrP]
    simp

lemma payIds_cons_treasury (a : Nat) (l : List PgfEvent) :
    payIds (.treasuryCredit a :: l) = payIds l := rfl

lemma payIds_append (l₁ l₂ : List PgfEvent) :
    payIds (l₁ ++ l₂) = payIds l₁ ++ payIds l₂ :=
  List.filterMap_append l₁ l₂ _

/-- Claim C3: in a successful epoch pass the funding obligations are
attempted in strictly ascending id order whatever the storage load order,
each one exactly once and for its full amount, every payment attempt
precedes every steward credit, and every steward's distribution share is
credited exactly once. -/
theorem apply_inflation_ordering {σ : Type} (B : TokenBackend σ)
    (ctx : PgfCtx) (s s' : σ) (evs : List PgfEvent)
    (hnodup : (ctx.payments.map PgfFunding.id).Nodup)
    (hok : apply_inflation B ctx s = .ok (s', evs)) :
    List.Pairwise (· < ·) (payIds evs) ∧
    (payIds evs).Perm (ctx.payments.map PgfFunding.id) ∧
    (∀ f ∈ ctx.payments,
      ∃ b, PgfEvent.payAttempt f.id f.detail.amount b ∈ evs) ∧
    (∃ l₁ l₂, evs = l₁ ++ l₂ ∧ (∀ e ∈ l₁, e.isStewardCredit = false) ∧
      (∀ e ∈ l₂, e.isPay = false)) ∧
    (evs.filter PgfEvent.isStewardCredit).length =
      (ctx.stewards.flatMap fun st => st.reward_distribution).length ∧
    (∀ st ∈ ctx.stewards, ∀ p ∈ st.reward_distribution,
      ∃ b, PgfEvent.stewardCredit p.1
        (rewardAmount (stewardInflation ctx) p.2) b ∈ evs) := by
  obtain ⟨flagsP, flagsS, hlenP, hlenS, hevs⟩ :=
    apply_inflation_ok_shape B ctx s s' evs hok
  have hperm : (List.insertionSort fundingLe ctx.payments).Perm ctx.payments :=
    List.perm_insertionSort fundingLe ctx.payments
  have hids : payIds evs =
      (List.insertionSort fundingLe ctx.payments).map PgfFunding.id := by
    rw [hevs, payIds_cons_treasury, payIds_append,
      payIds_payZip _ _ hlenP, payIds_stewardZip]
    simp
  refine ⟨?_, ?_, ?_, ?_, ?_, ?_⟩
  · have hsorted : List.Sorted fundingLe
        (List.insertionSort fundingLe ctx.payments) :=
      List.sorted_insertionSort fundingLe ctx.payments
    have hle : List.Sorted (· ≤ ·)
        ((List.insertionSort fundingLe ctx.payments).map PgfFunding.id) :=
      List.pairwise_map.mpr hsorted
    have hnodupL :
        ((List.insertionSort fundingLe ctx.payments).map PgfFunding.id).Nodup :=
      ((hperm.map PgfFunding.id).nodup_iff).mpr hnodup
    rw [hids]
    exact hle.lt_of_le hnodupL
  · rw [hids]
    exact hperm.map PgfFunding.id
  · intro f hf
    obtain ⟨b, hb⟩ := exists_mem_zipWith_of_mem
      (fun f b => PgfEvent.payAttempt f.id f.detail.amount b)
      (List.insertionSort fundingLe ctx.payments) flagsP hlenP f
      ((List.mem_insertionSort fundingLe).mpr hf)
    exact ⟨b, by
      rw [hevs]
      exact List.mem_cons_of_mem _ (List.mem_append_left _ hb)⟩
  · refine ⟨PgfEvent.treasuryCredit (treasuryAmount ctx) ::
      List.zipWith (fun f b => PgfEvent.payAttempt f.id f.detail.amount b)
        (List.insertionSort fundingLe ctx.payments) flagsP,
      List.zipWith (fun p b => PgfEvent.stewardCredit p.1
        (rewardAmount (stewardInflation ctx) p.2) b)
        (ctx.stewards.flatMap fun st => st.reward_distribution) flagsS,
      by rw [hevs]; simp, ?_, ?_⟩
    · intro e he
      rcases List.mem_cons.mp he with rfl | he
      · rfl
      · obtain ⟨a, b, -, rfl⟩ := eq_of_mem_zipWith _ _ _ e he
        rfl
    · intro e he
      obtain ⟨a, b, -, rfl⟩ := eq_of_mem_zipWith _ _ _ e he
      rfl
  · rw [hevs]
    have h₁ : (List.zipWith
        (fun f b => PgfEvent.payAttempt f.id f.detail.amount b)
        (List.insertionSort fundingLe ctx.payments) flagsP).filter
          PgfEvent.isStewardCredit = [] := by
      rw [List.filter_eq_nil_iff]
      intro e he
      obtain ⟨a, b, -, rfl⟩ := eq_of_mem_zipWith _ _ _ e he
      simp [PgfEvent.isStewardCredit]
    have h₂ : (List.zipWith (fun p b => PgfEvent.stewardCredit p.1
        (rewardAmount (stewardInflation ctx) p.2) b)
        (ctx.stewards.flatMap fun st => st.reward_distribution)
        flagsS).filter PgfEvent.isStewardCredit =
        List.zipWith (fun p b => PgfEvent.stewardCredit p.1
          (rewardAmount (stewardInflation ctx) p.2) b)
          (ctx.stewards.flatMap fun st => st.reward_distribution) flagsS := by
      rw [List.filter_eq_self]
      intro e he
      obtain ⟨a, b, -, rfl⟩ := eq_of_mem_zipWith _ _ _ e he
      rfl
    simp only [List.filter_cons, List.filter_append, h₁, h₂]
    simp [PgfEvent.isStewardCredit, List.length_zipWith, hlenS]
  · intro st hst p hp
    obtain ⟨b, hb⟩ := exists_mem_zipWith_of_mem
      (fun p b => PgfEvent.stewardCredit p.1
        (rewardAmount (stewardInflation ctx) p.2) b)
      (ctx.stewards.flatMap fun s => s.reward_distribution) flagsS hlenS p
      (List.mem_flatMap.mpr ⟨st, hst, hp⟩)
    exact ⟨b, by
      rw [hevs]
      exact List.mem_cons_of_mem _ (List.mem_append_right _ hb)⟩

/-- A backend over a counter state on which every call succeeds. -/
def okB : TokenBackend Nat :=
  { transfer := fun s _ _ _ _ => .ok (s + 1)
    transfer_over_ibc := fun s _ _ _ => .ok (s + 1)
    credit_tokens := fun s _ _ _ => .ok (s + 1) }

/-- A backend on which transfers to one recipient fail, leaving the
storage unchanged. -/
def failB : TokenBackend Nat :=
  { transfer := fun s _ _ tgt _ =>
      if tgt = .established 2 then .error s else .ok (s + 1)
    transfer_over_ibc := fun s _ _ _ => .ok (s + 1)
    credit_tokens := fun s _ _ _ => .ok (s + 1) }

/-- A backend on which every credit fails. -/
def errB : TokenBackend Nat :=
  { transfer := fun s _ _ _ _ => .ok (s + 1)
    transfer_over_ibc := fun s _ _ _ => .ok (s + 1)
    credit_tokens := fun s _ _ _ => .error s }

/-- A concrete epoch context: obligations loaded in id order `[3, 1, 2]`,
one steward with a 60/40 distribution. -/
def ctxEx : PgfCtx :=
  { parameters :=
      { pgf_inflation_rate := ⟨100000⟩, stewards_inflation_rate := ⟨10000⟩ }
    staking_token := .established 0
    epochs_per_year := 2
    total_tokens := 1000
    payments :=
      [⟨3, .internal ⟨.established 3, 30⟩⟩,
       ⟨1, .internal ⟨.established 1, 10⟩⟩,
       ⟨2, .internal ⟨.established 2, 20⟩⟩]
    stewards :=
      [⟨.established 9,
        [(.established 9, ⟨600000⟩), (.established 8, ⟨400000⟩)]⟩] }

/-- The trace of `apply_inflation okB ctxEx 0`. -/
def evsEx : List PgfEvent :=
  [.treasuryCredit 50,
   .payAttempt 1 10 true,
   .payAttempt 2 20 true,
   .payAttempt 3 30 true,
   .stewardCredit (.established 9) 3 true,
   .stewardCredit (.established 8) 2 true]

theorem apply_inflation_ordering_witness :
    List.Pairwise (· < ·) (payIds evsEx) :=
  (apply_inflation_ordering okB ctxEx 0 6 evsEx (by decide) rfl).1

/-- Claim C4: whenever the initial treasury credit succeeds, the epoch pass
returns `Ok` for every backend — in particular when some transfers fail —
and still attempts every funding obligation for its full amount and every
steward distribution credit. -/
theorem apply_inflation_failure_isolation {σ : Type} (B : TokenBackend σ)
    (ctx : PgfCtx) (s s₁ : σ)
    (hcred : B.credit_tokens s ctx.staking_token .pgf (treasuryAmount ctx) =
      .ok s₁) :
    ∃ s' evs, apply_inflation B ctx s = .ok (s', evs) ∧
      (∀ f ∈ ctx.payments,
        ∃ b, PgfEvent.payAttempt f.id f.detail.amount b ∈ evs) ∧
      (∀ st ∈ ctx.stewards, ∀ p ∈ st.reward_distribution,
        ∃ b, PgfEvent.stewardCredit p.1
          (rewardAmount (stewardInflation ctx) p.2) b ∈ evs) := by
  have hex : ∃ r, apply_inflation B ctx s = .ok r := by
    simp only [apply_inflation]
    rw [hcred]
    exact ⟨_, rfl⟩
  obtain ⟨⟨s', evs⟩, hok⟩ := hex
  obtain ⟨flagsP, flagsS, hlenP, hlenS, hevs⟩ :=
    apply_inflation_ok_shape B ctx s s' evs hok
  refine ⟨s', evs, hok, ?_, ?_⟩
  · intro f hf
    obtain ⟨b, hb⟩ := exists_mem_zipWith_of_mem
      (fun f b => PgfEvent.payAttempt f.id f.detail.amount b)
      (List.insertionSort fundingLe ctx.payments) flagsP hlenP f
      ((List.mem_insertionSort fundingLe).mpr hf)
    exact ⟨b, by
      rw [hevs]
      exact List.mem_cons_of_mem _ (List.mem_append_left _ hb)⟩
  · intro st hst p hp
    obtain ⟨b, hb⟩ := exists_mem_zipWith_of_mem
      (fun p b => PgfEvent.stewardCredit p.1
        (rewardAmount (stewardInflation ctx) p.2) b)
      (ctx.stewards.flatMap fun x => x.reward_distribution) flagsS hlenS p
      (List.mem_flatMap.mpr ⟨st, hst, hp⟩)
    exact ⟨b, by
      rw [hevs]
      exact List.mem_cons_of_mem _ (List.mem_append_right _ hb)⟩

theorem apply_inflation_failure_isolation_witness :
    ∃ s' evs, apply_inflation failB ctxEx 0 = .ok (s', evs) ∧
      (∀ f ∈ ctxEx.payments,
        ∃ b, PgfEvent.payAttempt f.id f.detail.amount b ∈ evs) ∧
      (∀ st ∈ ctxEx.stewards, ∀ p ∈ st.reward_distribution,
        ∃ b, PgfEvent.stewardCredit p.1
          (rewardAmount (stewardInflation ctxEx) p.2) b ∈ evs) :=
  apply_inflation_failure_isolation failB ctxEx 0 1 rfl

/-- The collaborator contract assumed of the transfer primitives (spec:
each obligation attempt is independently atomic): a failed call leaves the
storage as it found it. -/
def revertsOnError {σ : Type} (B : TokenBackend σ) : Prop :=
  (∀ (s : σ) tok src tgt amt (s' : σ),
    B.transfer s tok src tgt amt = .error s' → s' = s) ∧
  (∀ (s : σ) tok src t (s' : σ),
    B.transfer_over_ibc s tok src t = .error s' → s' = s) ∧
  (∀ (s : σ) tok tgt amt (s' : σ),
    B.credit_tokens s tok tgt amt = .error s' → s' = s)

/-- Claim C5: under the atomic-transfer collaborator contract, a funding
obligation whose attempt fails leaves the storage exactly as it was before
the attempt (no partial write leaks into the next obligation), while the
epoch pass as a whole is not transactional: the fold over obligations
decomposes so earlier obligations' results are retained. -/
theorem payFunding_rollback {σ : Type} (B : TokenBackend σ)
    (hrev : revertsOnError B) (tok : Address) :
    (∀ (s : σ) (evs : List PgfEvent) (f : PgfFunding),
      (payFunding B tok (s, evs) f).2 =
        evs ++ [PgfEvent.payAttempt f.id f.detail.amount false] →
      (payFunding B tok (s, evs) f).1 = s) ∧
    (∀ (l₁ l₂ : List PgfFunding) (acc : σ × List PgfEvent),
      (l₁ ++ l₂).foldl (payFunding B tok) acc =
        l₂.foldl (payFunding B tok) (l₁.foldl (payFunding B tok) acc)) := by
  constructor
  · intro s evs f htr
    obtain ⟨id, detail⟩ := f
    cases detail with
    | internal t =>
      cases hres : B.transfer s tok .pgf t.target t.amount with
      | ok s' =>
        simp [payFunding, hres] at htr
      | error s' =>
        simp only [payFunding, hres]
        exact hrev.1 s tok .pgf t.target t.amount s' hres
    | ibc t =>
      cases hres : B.transfer_over_ibc s tok .pgf t with
      | ok s' =>
        simp [payFunding, hres] at htr
      | error s' =>
        simp only [payFunding, hres]
        exact hrev.2.1 s tok .pgf t s' hres
  · intro l₁ l₂ acc
    exact List.foldl_append _ _ _ _

lemma failB_reverts : revertsOnError failB := by
  refine ⟨?_, ?_, ?_⟩
  · intro s tok src tgt amt s' h
    by_cases ht : tgt = Address.established 2
    · simp [failB, ht] at h
      exact h.symm
    · simp [failB, ht] at h
  · intro s tok src t s' h
    simp [failB] at h
  · intro s tok tgt amt s' h
    simp [failB] at h

theorem payFunding_rollback_witness :
    (payFunding failB (Address.established 0)
      (0, []) ⟨2, .internal ⟨.established 2, 20⟩⟩).1 = 0 :=
  (payFunding_rollback failB failB_reverts (Address.established 0)).1 0 []
    ⟨2, .internal ⟨.established 2, 20⟩⟩ rfl

/-- Claim C6: the pass credits the PGF treasury with exactly
`total_supply * (pgf_inflation_rate / epochs_per_year)` (in `Dec`
arithmetic, converted to an amount) as its first action, before any
obligation payment, and a failure of that credit aborts the pass with the
error rather than being ignored. -/
theorem apply_inflation_treasury_credit {σ : Type} (B : TokenBackend σ)
    (ctx : PgfCtx) (s : σ) :
    treasuryAmount ctx =
      Amount.ofDec ((Dec.ofAmount ctx.total_tokens).mul
        (ctx.parameters.pgf_inflation_rate.div
          (Dec.ofNat ctx.epochs_per_year))) ∧
    (∀ s₁, B.credit_tokens s ctx.staking_token .pgf (treasuryAmount ctx) =
        .ok s₁ →
      ∃ s' evs rest, apply_inflation B ctx s = .ok (s', evs) ∧
        evs = PgfEvent.treasuryCredit (treasuryAmount ctx) :: rest) ∧
    (∀ sE, B.credit_tokens s ctx.staking_token .pgf (treasuryAmount ctx) =
        .error sE →
      apply_inflation B ctx s = .error sE) := by
  refine ⟨rfl, ?_, ?_⟩
  · intro s₁ hcred
    have hex : ∃ r, apply_inflation B ctx s = .ok r := by
      simp only [apply_inflation]
      rw [hcred]
      exact ⟨_, rfl⟩
    obtain ⟨⟨s', evs⟩, hok⟩ := hex
    obtain ⟨flagsP, flagsS, -, -, hevs⟩ :=
      apply_inflation_ok_shape B ctx s s' evs hok
    exact ⟨s', evs, _, hok, hevs⟩
  · intro sE hcred
    simp only [apply_inflation]
    rw [hcred]

theorem apply_inflation_treasury_credit_witness :
    (∃ s' evs rest, apply_inflation okB ctxEx 0 = .ok (s', evs) ∧
      evs = PgfEvent.treasuryCredit (treasuryAmount ctxEx) :: rest) ∧
    apply_inflation errB ctxEx 0 = .error 0 :=
  ⟨(apply_inflation_treasury_credit okB ctxEx 0).2.1 1 rfl,
   (apply_inflation_treasury_credit errB ctxEx 0).2.2 0 rfl⟩

/-- Claim C7: every steward distribution share is credited the steward
pool multiplied by the share, computed with checked multiplication whose
failure yields a zero reward rather than an error; the credits are
attempted for every share, whatever the outcome of the other credits. -/
theorem apply_inflation_steward_shares {σ : Type} (B : TokenBackend σ)
    (ctx : PgfCtx) (s s' : σ) (evs : List PgfEvent)
    (hok : apply_inflation B ctx s = .ok (s', evs)) :
    (∀ st ∈ ctx.stewards, ∀ p ∈ st.reward_distribution,
      ∃ b, PgfEvent.stewardCredit p.1
        (rewardAmount (stewardInflation ctx) p.2) b ∈ evs) ∧
    (∀ pct : Dec, (stewardInflation ctx).checked_mul pct = none →
      rewardAmount (stewardInflation ctx) pct = 0) := by
  obtain ⟨flagsP, flagsS, hlenP, hlenS, hevs⟩ :=
    apply_inflation_ok_shape B ctx s s' evs hok
  constructor
  · intro st hst p hp
    obtain ⟨b, hb⟩ := exists_mem_zipWith_of_mem
      (fun p b => PgfEvent.stewardCredit p.1
        (rewardAmount (stewardInflation ctx) p.2) b)
      (ctx.stewards.flatMap fun x => x.reward_distribution) flagsS hlenS p
      (List.mem_flatMap.mpr ⟨st, hst, hp⟩)
    exact ⟨b, by
      rw [hevs]
      exact List.mem_cons_of_mem _ (List.mem_append_right _ hb)⟩
  · intro pct h
    simp [rewardAmount, h, Dec.zero, Amount.ofDec]

set_option maxRecDepth 8000 in
theorem apply_inflation_steward_shares_witness :
    rewardAmount (stewardInflation ctxEx) ⟨2 ^ 255⟩ = 0 :=
  (apply_inflation_steward_shares okB ctxEx 0 6 evsEx rfl).2 ⟨2 ^ 255⟩
    (by decide)

/-- A MASP shielded transaction, opaque to the protocol context. -/
structure MaspTransaction where
  bytes : List Nat
  deriving DecidableEq, Repr

/-- `IbcProtocolContext`: the protocol action execution context, wrapping a
mutable borrow of the ledger storage. -/
structure IbcProtocolContext (σ : Type) where
  wl_storage : σ

/-- `IbcProtocolContext::handle_masp_tx`: the body is `unimplemented!`, an
unconditional panic. -/
def IbcProtocolContext.handle_masp_tx {σ : Type} (_ctx : IbcProtocolContext σ)
    (_shielded : MaspTransaction) (_pin_key : Option String) :
    Except Panic (IbcProtocolContext σ × Unit) :=
  .error .unimplementedMasp

/-- Claim C9: calling the protocol context's shielded-transfer operation
panics for every context and every argument; it never returns `Ok` and
never silently no-ops, so no protocol-internal action can complete a
shielded transfer through this context. -/
theorem handle_masp_tx_always_panics {σ : Type} (ctx : IbcProtocolContext σ)
    (shielded : MaspTransaction) (pin_key : Option String) :
    ctx.handle_masp_tx shielded pin_key = .error .unimplementedMasp ∧
    ∀ r, ctx.handle_masp_tx shielded pin_key ≠ .ok r :=
  ⟨rfl, fun _ h => Except.noConfusion h⟩

/-- A UTC timestamp in seconds. -/
structure DateTimeUtc where
  secs : Int
  deriving DecidableEq, Repr

/-- `DateTimeUtc::from_str("2000-01-01T00:00:00Z")`. -/
def timestamp2000 : DateTimeUtc := ⟨946684800⟩

/-- A cryptographic digest (`Hash`). -/
structure TxHash where
  bytes : List Nat
  deriving DecidableEq, Repr

/-- `GlobalArgs`: the generic transaction construction arguments. -/
structure GlobalArgs where
  expiration : Option DateTimeUtc
  code_hash : TxHash
  chain_id : String
  deriving DecidableEq, Repr

/-- Transaction sections (only the ones `build_tx` adds). -/
inductive TxSection
  | code (hash : TxHash) (tag : Option String)
  | dataSec (data : List Nat)
  deriving DecidableEq, Repr

/-- The transaction header fields relevant to `build_tx`. -/
structure TxHeader where
  chain_id : String
  expiration : Option DateTimeUtc
  timestamp : DateTimeUtc
  deriving DecidableEq, Repr

/-- A transaction under construction. -/
structure Tx where
  header : TxHeader
  sections : List TxSection
  deriving DecidableEq, Repr

/-- Modelled from the spec: `Tx::new(chain_id, expiration)` (not under
`src/`) stamps the header with the current wall-clock time `now`. -/
def Tx.new (chain_id : String) (expiration : Option DateTimeUtc)
    (now : DateTimeUtc) : Tx :=
  { header := { chain_id := chain_id, expiration := expiration
                timestamp := now }
    sections := [] }

/-- Modelled from the spec: `Tx::add_code_from_hash` (not under `src/`)
appends a code section referencing the given code hash and tag. -/
def Tx.add_code_from_hash (tx : Tx) (code_hash : TxHash)
    (tag : Option String) : Tx :=
  { tx with sections := tx.sections ++ [.code code_hash tag] }

/-- Modelled from the spec: `Tx::add_data` (not under `src/`) appends the
serialized data section. -/
def Tx.add_data (tx : Tx) (data : List Nat) : Tx :=
  { tx with sections := tx.sections ++ [.dataSec data] }

/-- Modelled from the spec: `Tx::raw_header_hash` (not under `src/`), a
deterministic digest computed from the header alone. -/
def Tx.raw_header_hash (tx : Tx) : TxHash :=
  ⟨tx.header.timestamp.secs.natAbs ::
    (tx.header.chain_id.toList.map Char.toNat ++
      (match tx.header.expiration with
        | none => []
        | some d => [d.secs.natAbs]))⟩

/-- `build_tx`: construct the raw transaction; `now` is the wall-clock
time `Tx::new` stamps, which is immediately overwritten with the fixed
timestamp 2000-01-01T00:00:00Z. -/
def build_tx (now : DateTimeUtc) (args : GlobalArgs) (data : List Nat)
    (code_tag : String) : Tx :=
  let inner_tx := Tx.new args.chain_id args.expiration now
  let inner_tx :=
    { inner_tx with
      header := { inner_tx.header with timestamp := timestamp2000 } }
  let inner_tx := inner_tx.add_code_from_hash args.code_hash (some code_tag)
  inner_tx.add_data data

/-- `get_sign_bytes`: the raw header hash is the only target to sign. -/
def get_sign_bytes (tx : Tx) : List TxHash :=
  [tx.raw_header_hash]

/-- `TransferToEthereum`: the bridge pool transfer payload (fields opaque
to transaction construction). -/
structure TransferToEthereum where
  asset : EthAddress
  recipient : EthAddress
  sender : Address
  amount : Nat
  deriving DecidableEq, Repr

/-- `GasFee` of a bridge pool transfer. -/
structure GasFee where
  amount : Nat
  payer : Address
  deriving DecidableEq, Repr

/-- `PendingTransfer { transfer, gas_fee }`. -/
structure PendingTransfer where
  transfer : TransferToEthereum
  gas_fee : GasFee
  deriving DecidableEq, Repr

/-- Modelled from the spec: Borsh serialization of a pending transfer, a
deterministic encoding of its fields. -/
def encodePendingTransfer (p : PendingTransfer) : List Nat :=
  p.transfer.asset.bytes ++ p.transfer.recipient.bytes ++
    [p.transfer.amount, p.gas_fee.amount]

/-- The code tag of bridge pool transfers. -/
def TX_BRIDGE_POOL_WASM : String := "tx_bridge_pool.wasm"

/-- `BridgeTransfer`: a raw bridge pool transaction. -/
structure BridgeTransfer where
  tx : Tx
  deriving DecidableEq, Repr

/-- `BridgeTransfer::new`: build the raw transaction from the pending
transfer and the global arguments. -/
def BridgeTransfer.new (now : DateTimeUtc) (transfer : TransferToEthereum)
    (gas_fee : GasFee) (args : GlobalArgs) : BridgeTransfer :=
  ⟨build_tx now args
    (encodePendingTransfer { transfer := transfer, gas_fee := gas_fee })
    TX_BRIDGE_POOL_WASM⟩

/-- `BridgeTransfer::get_sign_bytes`, delegating to the module-level
`get_sign_bytes` (renamed here to avoid shadowing it). -/
def BridgeTransfer.sign_bytes (b : BridgeTransfer) : List TxHash :=
  get_sign_bytes b.tx

/-- Claim C10: `build_tx` stamps the header with the fixed timestamp
2000-01-01T00:00:00Z rather than the wall clock, so construction is
deterministic: building twice from identical inputs at different times
yields identical transactions, identical sign bytes, and identical
`BridgeTransfer` values. -/
theorem build_tx_deterministic (now₁ now₂ : DateTimeUtc) (args : GlobalArgs)
    (data : List Nat) (code_tag : String) (transfer : TransferToEthereum)
    (gas_fee : GasFee) :
    (build_tx now₁ args data code_tag).header.timestamp = timestamp2000 ∧
    build_tx now₁ args data code_tag = build_tx now₂ args data code_tag ∧
    get_sign_bytes (build_tx now₁ args data code_tag) =
      get_sign_bytes (build_tx now₂ args data code_tag) ∧
    BridgeTransfer.new now₁ transfer gas_fee args =
      BridgeTransfer.new now₂ transfer gas_fee args :=
  ⟨rfl, rfl, rfl, rfl⟩

theorem handle_masp_tx_always_panics_witness :
    (⟨0⟩ : IbcProtocolContext Nat).handle_masp_tx ⟨[]⟩ none =
      .error .unimplementedMasp ∧
    (⟨0⟩ : IbcProtocolContext Nat).handle_masp_tx ⟨[]⟩ none ≠
      .ok (⟨0⟩, ()) :=
  ⟨(handle_masp_tx_always_panics (⟨0⟩ : IbcProtocolContext Nat) ⟨[]⟩ none).1,
   (handle_masp_tx_always_panics (⟨0⟩ : IbcProtocolContext Nat) ⟨[]⟩ none).2
     (⟨0⟩, ())⟩
